import Mathlib

/-!
Shallow embedding of `src/yb/util/net/net_util.cc` (YugabyteDB network
utilities): `HostPort` parsing, address-list resolution and dedup, the
`RemoveAndGetHostPortList` helper, error construction for resolver failures,
and the `GetFreePort` file-lock-based ephemeral port allocator.

External collaborators that are not part of the translated file
(gutil string helpers, `Sockaddr`, `getaddrinfo`, the `Env` file-lock
primitive, the random source) are modelled from the specification as
explicit parameters or small executable functions, each marked in its
doc comment.
-/

namespace YbNet

/-- Outcome kinds of `yb::Status` as used in this file: `STATUS(InvalidArgument,
msg, detail)`, `STATUS(NotFound, msg)`, and `STATUS(NetworkError, msg, detail)`
or `STATUS(NetworkError, msg, detail, code)` (the 4-argument form carries a
numeric errno `code`, the 3-argument form carries none). -/
inductive Status where
  | okS : Status
  | invalidArgument (msg : String) (detail : String) : Status
  | notFound (msg : String) : Status
  | networkError (msg : String) (detail : String) (code : Option Int) : Status
deriving DecidableEq, Repr

/-- `yb::HostPort`: a host string and a port.  `port_` is a `uint16_t` in the
source; every assignment in the translated code is range-checked to 65535
first, so it is carried as `Nat`. -/
structure HostPort where
  host : String
  port : Nat
deriving DecidableEq, Repr

/-- Modelled from the spec: `yb::Sockaddr` (class not under `src/`), a concrete
resolved address: IP text plus port, hashable/comparable for dedup. -/
structure Sockaddr where
  host : String
  port : Nat
deriving DecidableEq, Repr

/-- Modelled from the spec: `Sockaddr::ToString`, the `host:port` text form. -/
def Sockaddr.toStr (sa : Sockaddr) : String :=
  sa.host ++ ":" ++ toString sa.port

/-- `HostPort::equals(const Sockaddr&)`:
`sockaddr.host() == host() && sockaddr.port() == port()`. -/
def HostPort.equalsSockaddr (hp : HostPort) (sa : Sockaddr) : Bool :=
  sa.host == hp.host && sa.port == hp.port

/-- Modelled from the spec: `ascii_isspace`, the whitespace class used by
gutil `StripWhiteSpace` (space, tab, newline, vertical tab, form feed,
carriage return). -/
def isAsciiSpace (c : Char) : Bool :=
  c = ' ' || c = '\t' || c = '\n' || c = '\x0b' || c = '\x0c' || c = '\r'

/-- Modelled from the spec: gutil `StripWhiteSpace` (not under `src/`): trim
whitespace from both ends. -/
def stripWhiteSpace (s : String) : String :=
  String.mk (((s.data.dropWhile isAsciiSpace).reverse.dropWhile isAsciiSpace).reverse)

/-- Character-level worker for the first-colon split: returns the characters
before the first `:` and the characters after it (empty when there is no
colon). -/
def splitFirstColonChars : List Char → List Char × List Char
  | [] => ([], [])
  | c :: cs =>
    if c = ':' then ([], cs)
    else
      let p := splitFirstColonChars cs
      (c :: p.1, p.2)

/-- Modelled from the spec: `strings::Split(str, strings::delimiter::Limit(":", 1))`
(gutil, not under `src/`): split on the first colon only; the second component
is empty when the input has no colon. -/
def splitFirstColon (s : String) : String × String :=
  let p := splitFirstColonChars s.data
  (String.mk p.1, String.mk p.2)

/-- Modelled from the spec: gutil `strcount(str, ':')` (not under `src/`):
number of occurrences of `:` in the string. -/
def colonCount (s : String) : Nat :=
  s.data.count ':'

/-- Decimal value of a digit string (no validation; callers check `isDigitStr`). -/
def decimalValue (l : List Char) : Nat :=
  l.foldl (fun acc c => acc * 10 + (c.toNat - 48)) 0

/-- Modelled from the spec: gutil `SimpleAtoi` on the port remainder (not under
`src/`): the text "must parse as an unsigned decimal"; empty or non-digit text
fails. -/
def simpleAtoi (s : String) : Option Nat :=
  if s.data ≠ [] ∧ s.data.all Char.isDigit then some (decimalValue s.data)
  else none

/-- `HostPort::ParseString(str, default_port)`: split on the first colon, strip
whitespace from the host part; if the remainder is empty and the input has no
colon use `default_port`; otherwise the remainder must be an unsigned decimal
at most 65535, else `STATUS(InvalidArgument, "Invalid port", str)`. -/
def HostPort.parseString (str : String) (default_port : Nat) : Except Status HostPort :=
  let p := splitFirstColon str
  let host := stripWhiteSpace p.1
  if p.2 = "" ∧ colonCount str = 0 then
    .ok ⟨host, default_port⟩
  else
    match simpleAtoi p.2 with
    | none => .error (.invalidArgument "Invalid port" str)
    | some port =>
      if port > 65535 then .error (.invalidArgument "Invalid port" str)
      else .ok ⟨host, port⟩

/-- Character-level worker for comma splitting: current piece and the later
pieces. -/
def splitCommaAux : List Char → List Char × List (List Char)
  | [] => ([], [])
  | c :: cs =>
    let p := splitCommaAux cs
    if c = ',' then ([], p.1 :: p.2) else (c :: p.1, p.2)

/-- Modelled from the spec: `strings::Split(s, ",", strings::SkipEmpty())`
(gutil, not under `src/`): split on `,` and drop empty pieces. -/
def splitCommaSkipEmpty (s : String) : List String :=
  let p := splitCommaAux s.data
  ((p.1 :: p.2).map String.mk).filter (fun t => t ≠ "")

/-- `HostPort::ParseStrings` loop body: parse each piece with `ParseString`,
`RETURN_NOT_OK` aborts on the first failure, successes are pushed in order. -/
def HostPort.parseList (dp : Nat) : List String → Except Status (List HostPort)
  | [] => .ok []
  | a :: rest =>
    match HostPort.parseString a dp with
    | .error e => .error e
    | .ok hp => (HostPort.parseList dp rest).map (fun l => hp :: l)

/-- `HostPort::ParseStrings(comma_sep_addrs, default_port, res)`: split on `,`
skipping empty pieces, parse each; the local vector is assigned to `*res` only
after every piece parsed, so on failure the caller's vector is returned
unchanged with the first error. -/
def HostPort.parseStrings (comma_sep_addrs : String) (dp : Nat)
    (res : List HostPort) : List HostPort × Status :=
  match HostPort.parseList dp (splitCommaSkipEmpty comma_sep_addrs) with
  | .error e => (res, e)
  | .ok l => (l, .okS)

/-- `std::ostringstream::str(s)`: REPLACES the buffer contents with `s`
(the source uses it where appending was evidently intended). -/
def ostreamStr (_buf s : String) : String := s

/-- The `LOG(ERROR)` text built on the not-found path of
`RemoveAndGetHostPortList`: `out.str("Current list of master addresses: ")`,
then per address `out.str(master_server_addr); out.str(" ")`, then
`out.str()` is logged. -/
def notFoundLog (addrs : List String) : String :=
  addrs.foldl (fun buf a => ostreamStr (ostreamStr buf a) " ")
    (ostreamStr "" "Current list of master addresses: ")

/-- Output of `RemoveAndGetHostPortList`: the caller's `res` vector after the
call (it is pushed to during the loop, also on error paths), the returned
status, and the `LOG(ERROR)` line when one is emitted. -/
structure RemoveOut where
  res : List HostPort
  status : Status
  log : Option String
deriving DecidableEq, Repr

/-- The nested loops of `RemoveAndGetHostPortList` over the flattened address
strings: parse each (first failure returned immediately), skip every endpoint
`equals` to `remove` setting `found`, push the rest onto `res`. -/
def removeLoop (remove : Sockaddr) (dp : Nat) :
    List String → List HostPort → Bool → List HostPort × Bool × Option Status
  | [], res, found => (res, found, none)
  | a :: rest, res, found =>
    match HostPort.parseString a dp with
    | .error e => (res, found, some e)
    | .ok hp =>
      if hp.equalsSockaddr remove then removeLoop remove dp rest res true
      else removeLoop remove dp rest (res ++ [hp]) found

/-- `HostPort::RemoveAndGetHostPortList(remove, multiple_server_addresses,
default_port, res)`: flatten the comma-separated strings, run the removal
loop; if nothing matched, log the (mis-built) address list and return
`STATUS(NotFound, Substitute("Cannot find $0 in master addresses.",
remove.ToString()))`. -/
def HostPort.removeAndGetHostPortList (remove : Sockaddr) (addrs : List String)
    (dp : Nat) (res : List HostPort) : RemoveOut :=
  match removeLoop remove dp ((addrs.map splitCommaSkipEmpty).flatten) res false with
  | (res', _, some e) => ⟨res', e, none⟩
  | (res', true, none) => ⟨res', .okS, none⟩
  | (res', false, none) =>
    ⟨res', .notFound ("Cannot find " ++ remove.toStr ++ " in master addresses."),
      some (notFoundLog addrs)⟩

/-- `HostPort::ResolveAddresses`: `getaddrinfo` (AF_INET/SOCK_STREAM) is the
injected `gai` parameter, returning either the resolved IPv4 addresses or a
nonzero return code `rc`; on failure the source builds
`STATUS(NetworkError, StringPrintf("Unable to resolve address '%s'", host),
gai_strerror(rc))` — the three-argument form, so no numeric errno code is
attached.  Each resolved address gets `sin_port := port_`. -/
def resolveAddresses (gai : String → Except Int (List String))
    (gaiStrerror : Int → String) (hp : HostPort) : Except Status (List Sockaddr) :=
  match gai hp.host with
  | .error rc =>
    .error (.networkError ("Unable to resolve address '" ++ hp.host ++ "'")
      (gaiStrerror rc) none)
  | .ok ips => .ok (ips.map (fun ip => ⟨ip, hp.port⟩))

/-- `GetHostname`: the OS `gethostname` call is the injected parameter (its
error value is the errno on failure); failure produces
`STATUS(NetworkError, "Unable to determine local hostname",
ErrnoToString(errno), errno)`. -/
def getHostname (ghn : Except Int String) (errnoToString : Int → String) :
    Except Status String :=
  match ghn with
  | .error e => .error (.networkError "Unable to determine local hostname" (errnoToString e) (some e))
  | .ok name => .ok name

/-- `GetFQDN`: get the hostname, then resolve it with `AI_CANONNAME`
(`canonLookup`, returning the canonical name or the nonzero `getaddrinfo`
return code).  On lookup failure the source builds
`STATUS(NetworkError, "Unable to lookup FQDN", ErrnoToString(errno), errno)`:
it ignores the returned `rc` and reads the ambient thread `errno`
(`errnoVal` here), which `getaddrinfo` does not set. -/
def getFQDN (ghn : Except Int String) (canonLookup : String → Except Int String)
    (errnoVal : Int) (errnoToString : Int → String) : Except Status String :=
  match getHostname ghn errnoToString with
  | .error st => .error st
  | .ok name =>
    match canonLookup name with
    | .error _rc =>
      .error (.networkError "Unable to lookup FQDN" (errnoToString errnoVal) (some errnoVal))
    | .ok canonname => .ok canonname

/-- The dedup insertion of `ParseAddressList`: for each resolved address, if
`InsertIfNotPresent(&uniqued, addr)` succeeds push it onto `addresses`,
otherwise only log.  `uniqued` is the membership set, `out` the caller's
vector. -/
def addUnique : List Sockaddr → List Sockaddr → List Sockaddr →
    List Sockaddr × List Sockaddr
  | uniqued, out, [] => (uniqued, out)
  | uniqued, out, a :: rest =>
    if a ∈ uniqued then addUnique uniqued out rest
    else addUnique (a :: uniqued) (out ++ [a]) rest

/-- The resolution loop of `ParseAddressList`: resolve each parsed `HostPort`
(first failure returned, keeping the pushes made so far) and insert the
results through the dedup set. -/
def parseAddressListLoop (gai : String → Except Int (List String))
    (gaiStrerror : Int → String) :
    List HostPort → List Sockaddr → List Sockaddr → List Sockaddr × List Sockaddr × Status
  | [], uniqued, out => (uniqued, out, .okS)
  | hp :: rest, uniqued, out =>
    match resolveAddresses gai gaiStrerror hp with
    | .error st => (uniqued, out, st)
    | .ok this_addresses =>
      let p := addUnique uniqued out this_addresses
      parseAddressListLoop gai gaiStrerror rest p.1 p.2

/-- `ParseAddressList(addr_list, default_port, addresses)`: parse with
`ParseStrings` (parse failure leaves `addresses` untouched), then resolve and
dedup into the caller's vector with an initially empty `uniqued` set. -/
def parseAddressList (gai : String → Except Int (List String))
    (gaiStrerror : Int → String) (addr_list : String) (dp : Nat)
    (addresses : List Sockaddr) : List Sockaddr × Status :=
  match HostPort.parseList dp (splitCommaSkipEmpty addr_list) with
  | .error e => (addresses, e)
  | .ok hps =>
    let r := parseAddressListLoop gai gaiStrerror hps [] addresses
    (r.2.1, r.2.2)

/-- Spec-side definition (for comparison with `parseAddressList`): keep the
first occurrence of each element, dropping later duplicates; `seen` is the set
already emitted. -/
def firstDedup (seen : List Sockaddr) : List Sockaddr → List Sockaddr
  | [] => []
  | a :: rest =>
    if a ∈ seen then firstDedup seen rest
    else a :: firstDedup (a :: seen) rest

/-- `kMinPort + rand.Next() % (kMaxPort - kMinPort + 1)` with
`kMinPort = 40000`, `kMaxPort = 65535`; `r` is the raw 32-bit draw. -/
def portOfDraw (r : Nat) : Nat := 40000 + r % (65535 - 40000 + 1)

/-- Outcome of `GetFreePort`: a returned port, or process termination through
`LOG(FATAL)` (the `return 0` after it is dead code). -/
inductive PortResult where
  | success (port : Nat)
  | fatalExit
deriving DecidableEq, Repr

/-- The attempt loop of `GetFreePort` (`for (int i = 0; i < 1000; ++i)`):
draw a port, try to bind (`bindOk`, outcome injected), on bind success try
`env->LockFile` (`lockOk`, outcome injected); both succeeding returns the
port, otherwise the next iteration runs; an exhausted budget reaches
`LOG(FATAL)`.  `i` is the attempt index, `fuel` the remaining iterations. -/
def getFreePortAux (bindOk lockOk : Nat → Nat → Bool) (draw : Nat → Nat) :
    Nat → Nat → PortResult
  | _, 0 => .fatalExit
  | i, fuel + 1 =>
    let p := portOfDraw (draw i)
    if bindOk i p then
      if lockOk i p then .success p
      else getFreePortAux bindOk lockOk draw (i + 1) fuel
    else getFreePortAux bindOk lockOk draw (i + 1) fuel

/-- `GetFreePort` with injected bind and lock outcomes: 1000 attempts starting
at index 0. -/
def getFreePort (bindOk lockOk : Nat → Nat → Bool) (draw : Nat → Nat) : PortResult :=
  getFreePortAux bindOk lockOk draw 0 1000

/-- Per-instance state of a simulated allocator running `GetFreePort`:
next attempt index, remaining attempt budget, the returned port once the call
succeeded, and whether the caller has since released the file lock. -/
structure InstSt where
  attempt : Nat
  fuel : Nat
  result : Option Nat
  released : Bool

/-- Shared state of `N` simulated allocator instances: the lock directory
(`locks p = some j` iff instance `j` holds the lock file of port `p`) and the
per-instance states. -/
structure AllocSys where
  locks : Nat → Option Nat
  insts : Nat → InstSt

/-- All locks free, every instance fresh with the full 1000-attempt budget. -/
def initSys : AllocSys :=
  ⟨fun _ => none, fun _ => ⟨0, 1000, none, false⟩⟩

/-- `env->LockFile(lock_file, &lock, false)` on the shared lock directory:
an exclusive non-blocking lock, returning the updated directory on success
and failing immediately when any instance already holds the port's lock. -/
def lockFile (locks : Nat → Option Nat) (j p : Nat) :
    Option (Nat → Option Nat) :=
  match locks p with
  | some _ => none
  | none => some (fun q => if q = p then some j else locks q)

/-- One loop iteration of `GetFreePort` executed by instance `j` against the
shared lock directory: draw, bind (outcome injected via `bindOk`), and on bind
success attempt the file lock; lock success records the returned port, any
failure consumes one unit of budget.  Finished or exhausted instances do
nothing. -/
def stepWork (draw : Nat → Nat → Nat) (bindOk : Nat → Nat → Nat → Bool)
    (s : AllocSys) (j : Nat) : AllocSys :=
  match (s.insts j).result, (s.insts j).fuel with
  | some _, _ => s
  | none, 0 => s
  | none, fuel + 1 =>
    if bindOk j (s.insts j).attempt (portOfDraw (draw j (s.insts j).attempt)) then
      match lockFile s.locks j (portOfDraw (draw j (s.insts j).attempt)) with
      | some locks' =>
        { locks := locks',
          insts := fun k =>
            if k = j then { s.insts j with result := some (portOfDraw (draw j (s.insts j).attempt)) }
            else s.insts k }
      | none =>
        { s with insts := fun k =>
            if k = j then { s.insts j with attempt := (s.insts j).attempt + 1, fuel := fuel }
            else s.insts k }
    else
      { s with insts := fun k =>
          if k = j then { s.insts j with attempt := (s.insts j).attempt + 1, fuel := fuel }
          else s.insts k }

/-- The caller of instance `j` destroys its `FileLock`, releasing the port's
lock file; a no-op unless `j` holds an unreleased port. -/
def stepRelease (s : AllocSys) (j : Nat) : AllocSys :=
  match (s.insts j).result, (s.insts j).released with
  | some p, false =>
    { locks := fun q => if q = p then none else s.locks q,
      insts := fun k => if k = j then { s.insts j with released := true } else s.insts k }
  | some _, true => s
  | none, _ => s

/-- Scheduler events: instance `j` performs one allocation attempt, or
releases its held lock. -/
inductive AllocEv where
  | work (j : Nat)
  | release (j : Nat)

/-- Run a schedule of interleaved attempts and releases over the shared lock
directory. -/
def runAlloc (draw : Nat → Nat → Nat) (bindOk : Nat → Nat → Nat → Bool) :
    List AllocEv → AllocSys → AllocSys
  | [], s => s
  | .work j :: evs, s => runAlloc draw bindOk evs (stepWork draw bindOk s j)
  | .release j :: evs, s => runAlloc draw bindOk evs (stepRelease s j)

/-! ### Parsing lemmas -/

instance exceptDecEq {ε α : Type} [DecidableEq ε] [DecidableEq α] :
    DecidableEq (Except ε α) := fun x y =>
  match x, y with
  | .ok a, .ok b =>
    if h : a = b then isTrue (by rw [h]) else isFalse (fun hh => h (by injection hh))
  | .error a, .error b =>
    if h : a = b then isTrue (by rw [h]) else isFalse (fun hh => h (by injection hh))
  | .ok _, .error _ => isFalse (fun hh => Except.noConfusion hh)
  | .error _, .ok _ => isFalse (fun hh => Except.noConfusion hh)

theorem splitFirstColonChars_no_colon (l : List Char) (h : l.count ':' = 0) :
    splitFirstColonChars l = (l, []) := by
  induction l with
  | nil => rfl
  | cons c cs ih =>
    rw [List.count_cons] at h
    by_cases hc : c = ':'
    · subst hc; simp at h
    · have hcc : (c == ':') = false := by
        simp [beq_iff_eq]; exact hc
      rw [hcc] at h
      simp at h
      simp [splitFirstColonChars, hc, ih h]

/-- With no colon in the input, `ParseString` keeps the whole (stripped) text
as the host and applies the default port. -/
theorem parseString_no_colon (s : String) (dp : Nat) (h : colonCount s = 0) :
    HostPort.parseString s dp = .ok ⟨stripWhiteSpace s, dp⟩ := by
  have h2 := splitFirstColonChars_no_colon s.data h
  simp only [HostPort.parseString, splitFirstColon, h2, h, and_true]
  rfl

/-- With a colon present and a remainder that is not an unsigned decimal at
most 65535, `ParseString` fails with `InvalidArgument` on the whole text. -/
theorem parseString_colon_bad (s : String) (dp : Nat) (h : colonCount s ≠ 0)
    (hbad : ∀ v, simpleAtoi (splitFirstColon s).2 = some v → 65535 < v) :
    HostPort.parseString s dp = .error (.invalidArgument "Invalid port" s) := by
  simp only [HostPort.parseString]
  rw [if_neg (fun hh => h hh.2)]
  cases hsa : simpleAtoi (splitFirstColon s).2 with
  | none => rfl
  | some v =>
    have hv := hbad v hsa
    simp [hv]

/-- C4: `ParseString` splits on the first colon only, trims whitespace from the
host, uses the default port when no colon is present, fails with
`InvalidArgument` whenever a colon is present and the remainder is not an
unsigned decimal at most 65535; in particular on `"host:1234"`, `"host"`,
`"host:notanumber"` and `"host:70000"` it behaves as the spec's examples
state. -/
theorem parseString_spec :
    HostPort.parseString "host:1234" 0 = .ok ⟨"host", 1234⟩ ∧
    HostPort.parseString "host" 7000 = .ok ⟨"host", 7000⟩ ∧
    HostPort.parseString "host:notanumber" 0 =
      .error (.invalidArgument "Invalid port" "host:notanumber") ∧
    HostPort.parseString "host:70000" 0 =
      .error (.invalidArgument "Invalid port" "host:70000") ∧
    (∀ s dp, colonCount s = 0 →
      HostPort.parseString s dp = .ok ⟨stripWhiteSpace s, dp⟩) ∧
    (∀ s dp, colonCount s ≠ 0 →
      (∀ v, simpleAtoi (splitFirstColon s).2 = some v → 65535 < v) →
      HostPort.parseString s dp = .error (.invalidArgument "Invalid port" s)) :=
  ⟨by decide, by decide, by decide, by decide, parseString_no_colon, parseString_colon_bad⟩

/-- Witness for C4 at concrete inputs. -/
theorem parseString_spec_witness :
    (colonCount " h " = 0 ∧ HostPort.parseString " h " 7 = .ok ⟨"h", 7⟩) ∧
    (colonCount "x:9!" ≠ 0 ∧
      HostPort.parseString "x:9!" 1 = .error (.invalidArgument "Invalid port" "x:9!")) := by
  refine ⟨⟨by decide, ?_⟩, ⟨by decide, ?_⟩⟩
  · rw [parseString_spec.2.2.2.2.1 " h " 7 (by decide)]; decide
  · exact parseString_spec.2.2.2.2.2 "x:9!" 1 (by decide)
      (fun v hv => by rw [show simpleAtoi (splitFirstColon "x:9!").2 = none from by decide] at hv
                      exact Option.noConfusion hv)

/-- When every piece parses, the `ParseStrings` loop returns all parsed
endpoints in input order. -/
theorem parseList_map_ok (dp : Nat) (f : String → HostPort) :
    ∀ l : List String, (∀ a ∈ l, HostPort.parseString a dp = .ok (f a)) →
      HostPort.parseList dp l = .ok (l.map f) := by
  intro l
  induction l with
  | nil => intro _; rfl
  | cons a rest ih =>
    intro h
    have ha := h a (by simp)
    have hr := ih (fun x hx => h x (by simp [hx]))
    simp [HostPort.parseList, ha, hr, Except.map]

/-- The `ParseStrings` loop surfaces the error of the first failing piece. -/
theorem parseList_first_error (dp : Nat) (e : Status) (bad : String)
    (hbad : HostPort.parseString bad dp = .error e) :
    ∀ good rest, (∀ a ∈ good, ∃ hp, HostPort.parseString a dp = .ok hp) →
      HostPort.parseList dp (good ++ bad :: rest) = .error e := by
  intro good
  induction good with
  | nil => intro rest _; simp [HostPort.parseList, hbad]
  | cons a g ih =>
    intro rest h
    obtain ⟨hp, hhp⟩ := h a (by simp)
    simp [HostPort.parseList, hhp, ih rest (fun x hx => h x (by simp [hx])), Except.map]

/-- C9: `ParseStrings` aborts on the first parse failure with no partial
results (the caller's vector is returned unchanged together with the first
failing segment's error), and on fully valid input returns the parsed
endpoints in input order over the comma-split pieces with empty segments
skipped. -/
theorem parseStrings_spec :
    (∀ s dp res f,
      (∀ a ∈ splitCommaSkipEmpty s, HostPort.parseString a dp = .ok (f a)) →
      HostPort.parseStrings s dp res = ((splitCommaSkipEmpty s).map f, .okS)) ∧
    (∀ s dp res good bad rest e,
      splitCommaSkipEmpty s = good ++ bad :: rest →
      (∀ a ∈ good, ∃ hp, HostPort.parseString a dp = .ok hp) →
      HostPort.parseString bad dp = .error e →
      HostPort.parseStrings s dp res = (res, e)) := by
  constructor
  · intro s dp res f h
    simp [HostPort.parseStrings, parseList_map_ok dp f _ h]
  · intro s dp res good bad rest e hsplit hgood hbad
    simp [HostPort.parseStrings, hsplit, parseList_first_error dp e bad hbad good rest hgood]

/-- Witness for C9: the spec's `"a:1,b:2"` example, and an invalid segment
leaving the caller's vector untouched. -/
theorem parseStrings_spec_witness :
    (HostPort.parseStrings "a:1,b:2" 0 [] = ([⟨"a", 1⟩, ⟨"b", 2⟩], .okS)) ∧
    (HostPort.parseStrings "a:1,b:x" 0 [⟨"q", 9⟩] =
      ([⟨"q", 9⟩], .invalidArgument "Invalid port" "b:x")) := by
  constructor
  · rw [parseStrings_spec.1 "a:1,b:2" 0 []
      (fun a => if a = "a:1" then ⟨"a", 1⟩ else ⟨"b", 2⟩) (by decide)]
    decide
  · exact parseStrings_spec.2 "a:1,b:x" 0 [⟨"q", 9⟩] ["a:1"] "b:x" []
      (.invalidArgument "Invalid port" "b:x") (by decide)
      (fun a ha => by
        have : a = "a:1" := by simpa using ha
        exact ⟨⟨"a", 1⟩, by rw [this]; decide⟩)
      (by decide)

/-! ### Port allocator: range and budget -/

theorem getFreePortAux_success_range (bindOk lockOk : Nat → Nat → Bool)
    (draw : Nat → Nat) :
    ∀ fuel i p, getFreePortAux bindOk lockOk draw i fuel = .success p →
      40000 ≤ p ∧ p ≤ 65535 := by
  intro fuel
  induction fuel with
  | zero => intro i p h; exact absurd h (by simp [getFreePortAux])
  | succ n ih =>
    intro i p h
    simp only [getFreePortAux] at h
    by_cases hb : bindOk i (portOfDraw (draw i)) = true
    · by_cases hl : lockOk i (portOfDraw (draw i)) = true
      · simp only [hb, hl, if_true] at h
        have hp : portOfDraw (draw i) = p := by
          injection h
        rw [← hp]
        unfold portOfDraw
        have : draw i % (65535 - 40000 + 1) < 65535 - 40000 + 1 :=
          Nat.mod_lt _ (by omega)
        omega
      · simp only [hb, hl, if_true, if_false] at h
        exact ih _ _ h
    · simp only [hb, if_false] at h
      exact ih _ _ h

/-- C6: every port value returned by `GetFreePort` lies in [40000, 65535],
for every random stream and all bind or lock outcomes. -/
theorem getFreePort_range (bindOk lockOk : Nat → Nat → Bool) (draw : Nat → Nat)
    (p : Nat) (h : getFreePort bindOk lockOk draw = .success p) :
    40000 ≤ p ∧ p ≤ 65535 :=
  getFreePortAux_success_range bindOk lockOk draw 1000 0 p h

/-- Witness for C6: every attempt of the all-success run draws 12345, giving
port 52345. -/
theorem getFreePort_range_witness :
    getFreePort (fun _ _ => true) (fun _ _ => true) (fun _ => 12345) =
      .success 52345 ∧ (40000 ≤ 52345 ∧ 52345 ≤ 65535) :=
  ⟨rfl, getFreePort_range (fun _ _ => true) (fun _ _ => true) (fun _ => 12345) 52345 rfl⟩

theorem getFreePortAux_exhausted (bindOk lockOk : Nat → Nat → Bool)
    (draw : Nat → Nat) :
    ∀ fuel i,
      (∀ k, i ≤ k → k < i + fuel →
        ¬(bindOk k (portOfDraw (draw k)) = true ∧ lockOk k (portOfDraw (draw k)) = true)) →
      getFreePortAux bindOk lockOk draw i fuel = .fatalExit := by
  intro fuel
  induction fuel with
  | zero => intro i _; rfl
  | succ n ih =>
    intro i h
    simp only [getFreePortAux]
    by_cases hb : bindOk i (portOfDraw (draw i)) = true
    · by_cases hl : lockOk i (portOfDraw (draw i)) = true
      · exact absurd ⟨hb, hl⟩ (h i (le_refl i) (by omega))
      · simp only [hb, hl, if_true, if_false]
        exact ih (i + 1) (fun k h1 h2 => h k (by omega) (by omega))
    · simp only [hb, if_false]
      exact ih (i + 1) (fun k h1 h2 => h k (by omega) (by omega))

theorem getFreePortAux_congr (b b' l l' : Nat → Nat → Bool) (d d' : Nat → Nat) :
    ∀ fuel i,
      (∀ k, i ≤ k → k < i + fuel →
        d k = d' k ∧ ∀ q, b k q = b' k q ∧ l k q = l' k q) →
      getFreePortAux b l d i fuel = getFreePortAux b' l' d' i fuel := by
  intro fuel
  induction fuel with
  | zero => intro i _; rfl
  | succ n ih =>
    intro i h
    obtain ⟨hd, hbl⟩ := h i (le_refl i) (by omega)
    have hrest : ∀ k, i + 1 ≤ k → k < (i + 1) + n →
        d k = d' k ∧ ∀ q, b k q = b' k q ∧ l k q = l' k q :=
      fun k h1 h2 => h k (by omega) (by omega)
    simp only [getFreePortAux, hd, (hbl (portOfDraw (d' i))).1, (hbl (portOfDraw (d' i))).2]
    by_cases hb : b' i (portOfDraw (d' i)) = true
    · by_cases hl : l' i (portOfDraw (d' i)) = true
      · simp [hb, hl]
      · simp only [hb, hl, if_true, if_false]
        exact ih (i + 1) hrest
    · simp only [hb, if_false]
      exact ih (i + 1) hrest

/-- C7: `GetFreePort` makes at most 1000 bind-and-lock attempts — its result
is fully determined by the draws and bind/lock outcomes of attempt indices
below 1000 — and when all 1000 attempts fail it reaches `LOG(FATAL)` (modelled
as `fatalExit`), never a soft return: the `return 0` after the loop is dead. -/
theorem getFreePort_budget_and_fatal :
    (∀ bindOk lockOk draw,
      (∀ k, k < 1000 →
        ¬(bindOk k (portOfDraw (draw k)) = true ∧ lockOk k (portOfDraw (draw k)) = true)) →
      getFreePort bindOk lockOk draw = .fatalExit) ∧
    (∀ b b' l l' d d',
      (∀ k, k < 1000 → d k = d' k ∧ ∀ q, b k q = b' k q ∧ l k q = l' k q) →
      getFreePort b l d = getFreePort b' l' d') := by
  constructor
  · intro bindOk lockOk draw h
    exact getFreePortAux_exhausted bindOk lockOk draw 1000 0
      (fun k _ h2 => h k (by omega))
  · intro b b' l l' d d' h
    exact getFreePortAux_congr b b' l l' d d' 1000 0 (fun k _ h2 => h k (by omega))

/-- Witness for C7: with binds always failing, the run is fatal. -/
theorem getFreePort_budget_witness :
    (∀ k, k < 1000 →
      ¬((fun _ _ => false) k (portOfDraw ((fun i => i) k)) = true ∧
        (fun _ _ => true) k (portOfDraw ((fun i => i) k)) = true)) ∧
    getFreePort (fun _ _ => false) (fun _ _ => true) (fun i => i) = .fatalExit := by
  constructor
  · intro k _ h; exact Bool.noConfusion h.1
  · exact getFreePort_budget_and_fatal.1 (fun _ _ => false) (fun _ _ => true) (fun i => i)
      (fun k _ h => Bool.noConfusion h.1)

/-! ### Removal: `RemoveAndGetHostPortList` -/

/-- Characterization of the removal loop when every piece parses: the caller's
vector gains every parsed endpoint not equal to the target (all occurrences of
the target are skipped), and `found` records whether any occurrence matched. -/
theorem removeLoop_spec (remove : Sockaddr) (dp : Nat) (f : String → HostPort) :
    ∀ (l : List String) (res : List HostPort) (found : Bool),
      (∀ a ∈ l, HostPort.parseString a dp = .ok (f a)) →
      removeLoop remove dp l res found =
        (res ++ (l.map f).filter (fun hp => !hp.equalsSockaddr remove),
         found || (l.map f).any (fun hp => hp.equalsSockaddr remove), none) := by
  intro l
  induction l with
  | nil => intro res found _; simp [removeLoop]
  | cons a rest ih =>
    intro res found h
    have ha := h a (by simp)
    have ihr := ih (res ++ [f a]) found (fun x hx => h x (by simp [hx]))
    have ihr2 := ih res true (fun x hx => h x (by simp [hx]))
    by_cases he : (f a).equalsSockaddr remove = true
    · simp [removeLoop, ha, he, ihr2]
    · simp only [Bool.not_eq_true] at he
      simp [removeLoop, ha, he, ihr]

/-- The full behavior of `RemoveAndGetHostPortList` when every flattened piece
parses, split on whether any parsed endpoint equals the target. -/
theorem removeAndGet_spec (remove : Sockaddr) (addrs : List String) (dp : Nat)
    (res : List HostPort) (f : String → HostPort)
    (h : ∀ a ∈ (addrs.map splitCommaSkipEmpty).flatten,
      HostPort.parseString a dp = .ok (f a)) :
    HostPort.removeAndGetHostPortList remove addrs dp res =
      ⟨res ++ (((addrs.map splitCommaSkipEmpty).flatten.map f).filter
          (fun hp => !hp.equalsSockaddr remove)),
        if ((addrs.map splitCommaSkipEmpty).flatten.map f).any
            (fun hp => hp.equalsSockaddr remove) then .okS
          else .notFound ("Cannot find " ++ remove.toStr ++ " in master addresses."),
        if ((addrs.map splitCommaSkipEmpty).flatten.map f).any
            (fun hp => hp.equalsSockaddr remove) then none
          else some (notFoundLog addrs)⟩ := by
  have hl := removeLoop_spec remove dp f ((addrs.map splitCommaSkipEmpty).flatten) res false h
  by_cases hany : ((addrs.map splitCommaSkipEmpty).flatten.map f).any
      (fun hp => hp.equalsSockaddr remove) = true
  · simp only [HostPort.removeAndGetHostPortList, hl, hany, Bool.false_or, if_true]
  · simp only [Bool.not_eq_true] at hany
    simp only [HostPort.removeAndGetHostPortList, hl, hany, Bool.false_or, Bool.false_eq_true,
      if_false]

/-- The `LOG(ERROR)` buffer built with `ostringstream::str` (which replaces
rather than appends): its final contents are the header for an empty address
list and a single space otherwise. -/
theorem notFoundLog_eq (addrs : List String) :
    notFoundLog addrs =
      if addrs = [] then "Current list of master addresses: " else " " := by
  cases addrs with
  | nil => rfl
  | cons a l =>
    have aux : ∀ (m : List String),
        m.foldl (fun buf a => ostreamStr (ostreamStr buf a) " ") " " = " " := by
      intro m
      induction m with
      | nil => rfl
      | cons b r ihm => simpa [ostreamStr] using ihm
    simpa [notFoundLog, ostreamStr] using aux l

/-- C2 counterexample: with searched input `["a:1"]` and target `b:2`, the
returned `NotFound` message is `"Cannot find b:2 in master addresses."`,
which does not contain the searched address string `"a:1"`. -/
theorem removeAndGet_message_counterexample :
    (HostPort.removeAndGetHostPortList ⟨"b", 2⟩ ["a:1"] 0 []).status =
      .notFound "Cannot find b:2 in master addresses." ∧
    ¬ List.IsInfix "a:1".data "Cannot find b:2 in master addresses.".data := by
  constructor
  · decide
  · decide

/-- C2 amended: on the not-found path the returned message is only
`Cannot find <target> in master addresses.` (it enumerates no searched
address); the enumeration is attempted in a `LOG(ERROR)` line instead, and
because `ostringstream::str` replaces the buffer, that logged line is a
single space for any nonempty input (the bare header for an empty one). -/
theorem removeAndGet_notfound_message (remove : Sockaddr) (addrs : List String)
    (dp : Nat) (res : List HostPort) (f : String → HostPort)
    (hparse : ∀ a ∈ (addrs.map splitCommaSkipEmpty).flatten,
      HostPort.parseString a dp = .ok (f a))
    (habsent : ∀ a ∈ (addrs.map splitCommaSkipEmpty).flatten,
      (f a).equalsSockaddr remove = false) :
    (HostPort.removeAndGetHostPortList remove addrs dp res).status =
      .notFound ("Cannot find " ++ remove.toStr ++ " in master addresses.") ∧
    (HostPort.removeAndGetHostPortList remove addrs dp res).log =
      some (if addrs = [] then "Current list of master addresses: " else " ") := by
  have hcond : ¬(((addrs.map splitCommaSkipEmpty).flatten.map f).any
      (fun hp => hp.equalsSockaddr remove) = true) := by
    simp only [List.any_eq_true, List.mem_map, not_exists]
    rintro hp ⟨⟨a, ha, rfl⟩, hk⟩
    rw [habsent a ha] at hk
    exact Bool.noConfusion hk
  rw [removeAndGet_spec remove addrs dp res f hparse]
  simp only [if_neg hcond]
  exact ⟨trivial, by rw [notFoundLog_eq]⟩

/-- Witness for C2 (amended): concrete not-found removal. -/
theorem removeAndGet_notfound_message_witness :
    (HostPort.removeAndGetHostPortList ⟨"b", 2⟩ ["a:1", "c:3"] 0 []).status =
      .notFound "Cannot find b:2 in master addresses." ∧
    (HostPort.removeAndGetHostPortList ⟨"b", 2⟩ ["a:1", "c:3"] 0 []).log = some " " := by
  have h := removeAndGet_notfound_message ⟨"b", 2⟩ ["a:1", "c:3"] 0 []
    (fun a => if a = "a:1" then ⟨"a", 1⟩ else ⟨"c", 3⟩) (by decide) (by decide)
  exact ⟨by rw [h.1]; decide, by rw [h.2]; decide⟩

/-- C3 counterexample: the flattened input `["a:1,a:1"]` parses to two
endpoints equal to the target `a:1`, yet after removal the result list is
empty — the second occurrence was NOT retained. -/
theorem removeAndGet_first_only_counterexample :
    HostPort.parseList 0 (splitCommaSkipEmpty "a:1,a:1") =
      .ok [⟨"a", 1⟩, ⟨"a", 1⟩] ∧
    HostPort.equalsSockaddr ⟨"a", 1⟩ ⟨"a", 1⟩ = true ∧
    (HostPort.removeAndGetHostPortList ⟨"a", 1⟩ ["a:1,a:1"] 0 []).res = [] := by
  refine ⟨by decide, by decide, by decide⟩

/-- C3 amended: `RemoveAndGetHostPortList` removes EVERY endpoint equal to the
target from the flatten-parsed list (not only the first): the result is the
input vector extended by exactly the parsed endpoints not equal to the
target, in input order. -/
theorem removeAndGet_removes_all (remove : Sockaddr) (addrs : List String)
    (dp : Nat) (res : List HostPort) (f : String → HostPort)
    (hparse : ∀ a ∈ (addrs.map splitCommaSkipEmpty).flatten,
      HostPort.parseString a dp = .ok (f a)) :
    (HostPort.removeAndGetHostPortList remove addrs dp res).res =
      res ++ (((addrs.map splitCommaSkipEmpty).flatten.map f).filter
        (fun hp => !hp.equalsSockaddr remove)) := by
  rw [removeAndGet_spec remove addrs dp res f hparse]

/-- Witness for C3 (amended): both duplicates of the target are dropped. -/
theorem removeAndGet_removes_all_witness :
    (HostPort.removeAndGetHostPortList ⟨"a", 1⟩ ["a:1,a:1,b:2"] 0 []).res =
      [⟨"b", 2⟩] := by
  have h := removeAndGet_removes_all ⟨"a", 1⟩ ["a:1,a:1,b:2"] 0 []
    (fun a => if a = "a:1" then ⟨"a", 1⟩ else ⟨"b", 2⟩) (by decide)
  rw [h]; decide

/-- C10: when `RemoveAndGetHostPortList` takes the `NotFound` path, the
caller's output vector has nonetheless been extended with every
successfully parsed endpoint of the flattened input — the output parameter is
mutated even on the error path. -/
theorem removeAndGet_mutates_on_notfound (remove : Sockaddr) (addrs : List String)
    (dp : Nat) (res : List HostPort) (f : String → HostPort)
    (hparse : ∀ a ∈ (addrs.map splitCommaSkipEmpty).flatten,
      HostPort.parseString a dp = .ok (f a))
    (habsent : ∀ a ∈ (addrs.map splitCommaSkipEmpty).flatten,
      (f a).equalsSockaddr remove = false) :
    (∃ msg, (HostPort.removeAndGetHostPortList remove addrs dp res).status =
      .notFound msg) ∧
    (HostPort.removeAndGetHostPortList remove addrs dp res).res =
      res ++ (addrs.map splitCommaSkipEmpty).flatten.map f := by
  have hcond : ¬(((addrs.map splitCommaSkipEmpty).flatten.map f).any
      (fun hp => hp.equalsSockaddr remove) = true) := by
    simp only [List.any_eq_true, List.mem_map, not_exists]
    rintro hp ⟨⟨a, ha, rfl⟩, hk⟩
    rw [habsent a ha] at hk
    exact Bool.noConfusion hk
  have hfil : ((addrs.map splitCommaSkipEmpty).flatten.map f).filter
      (fun hp => !hp.equalsSockaddr remove) =
      (addrs.map splitCommaSkipEmpty).flatten.map f := by
    refine List.filter_eq_self.mpr ?_
    simp only [List.mem_map]
    rintro hp ⟨a, ha, rfl⟩
    simp [habsent a ha]
  rw [removeAndGet_spec remove addrs dp res f hparse]
  simp only [if_neg hcond]
  exact ⟨⟨_, rfl⟩, by rw [hfil]⟩

/-- Witness for C10: the vector receives both parsed endpoints although the
call fails with `NotFound`. -/
theorem removeAndGet_mutates_on_notfound_witness :
    (∃ msg, (HostPort.removeAndGetHostPortList ⟨"b", 2⟩ ["a:1,c:3"] 0 []).status =
      .notFound msg) ∧
    (HostPort.removeAndGetHostPortList ⟨"b", 2⟩ ["a:1,c:3"] 0 []).res =
      [⟨"a", 1⟩, ⟨"c", 3⟩] := by
  have h := removeAndGet_mutates_on_notfound ⟨"b", 2⟩ ["a:1,c:3"] 0 []
    (fun a => if a = "a:1" then ⟨"a", 1⟩ else ⟨"c", 3⟩) (by decide) (by decide)
  exact ⟨h.1, by rw [h.2]; decide⟩

/-! ### Address-list resolution and dedup -/

/-- All resolved addresses of a parsed host list, in resolution order, before
dedup; `ips` is the injected resolution map. -/
def resolvedFlat (ips : String → List String) (hps : List HostPort) : List Sockaddr :=
  (hps.map (fun hp => (ips hp.host).map (fun ip => (⟨ip, hp.port⟩ : Sockaddr)))).flatten

theorem addUnique_snd (l : List Sockaddr) :
    ∀ uniqued out, (addUnique uniqued out l).2 = out ++ firstDedup uniqued l := by
  induction l with
  | nil => intro u o; simp [addUnique, firstDedup]
  | cons a r ih =>
    intro u o
    by_cases h : a ∈ u
    · simp [addUnique, firstDedup, h, ih]
    · simp [addUnique, firstDedup, h, ih]

theorem addUnique_fst_mem (l : List Sockaddr) :
    ∀ uniqued out x, x ∈ (addUnique uniqued out l).1 ↔ x ∈ uniqued ∨ x ∈ l := by
  induction l with
  | nil => intro u o x; simp [addUnique]
  | cons a r ih =>
    intro u o x
    by_cases h : a ∈ u
    · rw [show addUnique u o (a :: r) = addUnique u o r from by simp [addUnique, h],
        ih u o x, List.mem_cons]
      constructor
      · rintro (h1 | h1)
        · exact Or.inl h1
        · exact Or.inr (Or.inr h1)
      · rintro (h1 | h1 | h1)
        · exact Or.inl h1
        · rw [h1]; exact Or.inl h
        · exact Or.inr h1
    · rw [show addUnique u o (a :: r) = addUnique (a :: u) (o ++ [a]) r from by
        simp [addUnique, h], ih (a :: u) (o ++ [a]) x, List.mem_cons, List.mem_cons]
      tauto

theorem firstDedup_congr (l : List Sockaddr) :
    ∀ s1 s2, (∀ x, x ∈ s1 ↔ x ∈ s2) → firstDedup s1 l = firstDedup s2 l := by
  induction l with
  | nil => intro s1 s2 _; rfl
  | cons a r ih =>
    intro s1 s2 h
    by_cases ha : a ∈ s1
    · have ha2 : a ∈ s2 := (h a).1 ha
      simp [firstDedup, ha, ha2, ih s1 s2 h]
    · have ha2 : a ∉ s2 := fun hh => ha ((h a).2 hh)
      simp only [firstDedup, if_neg ha, if_neg ha2]
      rw [ih (a :: s1) (a :: s2) (fun x => by simp [List.mem_cons, h x])]

theorem firstDedup_append (l1 : List Sockaddr) :
    ∀ l2 seen U, (∀ x, x ∈ U ↔ x ∈ seen ∨ x ∈ l1) →
      firstDedup seen (l1 ++ l2) = firstDedup seen l1 ++ firstDedup U l2 := by
  induction l1 with
  | nil =>
    intro l2 seen U hU
    simp only [List.nil_append, firstDedup, List.nil_append]
    exact firstDedup_congr l2 seen U (fun x => by
      rw [hU x]
      simp)
  | cons a r ih =>
    intro l2 seen U hU
    by_cases ha : a ∈ seen
    · have key : ∀ x, x ∈ U ↔ x ∈ seen ∨ x ∈ r := fun x => by
        rw [hU x, List.mem_cons]
        constructor
        · rintro (h1 | h1 | h1)
          · exact Or.inl h1
          · rw [h1]; exact Or.inl ha
          · exact Or.inr h1
        · rintro (h1 | h1)
          · exact Or.inl h1
          · exact Or.inr (Or.inr h1)
      simp only [List.cons_append, firstDedup, if_pos ha]
      exact ih l2 seen U key
    · have key : ∀ x, x ∈ U ↔ x ∈ (a :: seen) ∨ x ∈ r := fun x => by
        rw [hU x, List.mem_cons, List.mem_cons]
        tauto
      simp only [List.cons_append, firstDedup, if_neg ha]
      rw [show firstDedup (a :: seen) (r.append l2) = firstDedup (a :: seen) (r ++ l2) from rfl,
        ih l2 (a :: seen) U key]

theorem firstDedup_sublist (l : List Sockaddr) :
    ∀ seen, List.Sublist (firstDedup seen l) l := by
  induction l with
  | nil => intro _; simp [firstDedup]
  | cons a r ih =>
    intro seen
    by_cases h : a ∈ seen
    · simp only [firstDedup, if_pos h]
      exact (ih seen).cons a
    · simp only [firstDedup, if_neg h]
      exact (ih (a :: seen)).cons₂ a

theorem firstDedup_nodup (l : List Sockaddr) :
    ∀ seen, (∀ x ∈ firstDedup seen l, x ∉ seen) ∧ (firstDedup seen l).Nodup := by
  induction l with
  | nil => intro _; simp [firstDedup]
  | cons a r ih =>
    intro seen
    by_cases h : a ∈ seen
    · simp only [firstDedup, if_pos h]
      exact ih seen
    · obtain ⟨hmem, hnd⟩ := ih (a :: seen)
      simp only [firstDedup, if_neg h]
      refine ⟨?_, ?_⟩
      · intro x hx
        rcases List.mem_cons.mp hx with h1 | h1
        · rw [h1]; exact h
        · exact fun hs => hmem x h1 (List.mem_cons_of_mem a hs)
      · refine List.nodup_cons.mpr ⟨?_, hnd⟩
        intro hax
        exact hmem a hax (List.mem_cons_self a seen)

/-- The resolution loop of `ParseAddressList`, when every host resolves:
the caller's vector gains exactly the first-seen representatives of the
resolved addresses, in order, and the final status is OK. -/
theorem parseAddressListLoop_ok (gai : String → Except Int (List String))
    (gstr : Int → String) (ips : String → List String) :
    ∀ (hps : List HostPort) (uniqued out : List Sockaddr),
      (∀ hp ∈ hps, gai hp.host = .ok (ips hp.host)) →
      (parseAddressListLoop gai gstr hps uniqued out).2 =
        (out ++ firstDedup uniqued (resolvedFlat ips hps), .okS) ∧
      (∀ x, x ∈ (parseAddressListLoop gai gstr hps uniqued out).1 ↔
        x ∈ uniqued ∨ x ∈ resolvedFlat ips hps) := by
  intro hps
  induction hps with
  | nil => intro u o _; simp [parseAddressListLoop, resolvedFlat, firstDedup]
  | cons hp rest ih =>
    intro u o h
    have hhp : resolveAddresses gai gstr hp =
        .ok ((ips hp.host).map (fun ip => (⟨ip, hp.port⟩ : Sockaddr))) := by
      simp [resolveAddresses, h hp (by simp)]
    have hstep : parseAddressListLoop gai gstr (hp :: rest) u o =
        parseAddressListLoop gai gstr rest
          (addUnique u o ((ips hp.host).map (fun ip => (⟨ip, hp.port⟩ : Sockaddr)))).1
          (addUnique u o ((ips hp.host).map (fun ip => (⟨ip, hp.port⟩ : Sockaddr)))).2 := by
      simp [parseAddressListLoop, hhp]
    obtain ⟨ih1, ih2⟩ := ih
      (addUnique u o ((ips hp.host).map (fun ip => (⟨ip, hp.port⟩ : Sockaddr)))).1
      (addUnique u o ((ips hp.host).map (fun ip => (⟨ip, hp.port⟩ : Sockaddr)))).2
      (fun x hx => h x (by simp [hx]))
    have hflat : resolvedFlat ips (hp :: rest) =
        ((ips hp.host).map (fun ip => (⟨ip, hp.port⟩ : Sockaddr))) ++ resolvedFlat ips rest := by
      simp [resolvedFlat]
    have happ := firstDedup_append
      ((ips hp.host).map (fun ip => (⟨ip, hp.port⟩ : Sockaddr)))
      (resolvedFlat ips rest) u
      (addUnique u o ((ips hp.host).map (fun ip => (⟨ip, hp.port⟩ : Sockaddr)))).1
      (fun x => addUnique_fst_mem _ u o x)
    constructor
    · rw [hstep, ih1, addUnique_snd, hflat, happ]
      simp
    · intro x
      rw [hstep, ih2 x, addUnique_fst_mem, hflat]
      simp only [List.mem_append]
      tauto

/-- C5: `ParseAddressList`, with resolution injected as a map, returns an
ordered unique sequence keyed by the whole resolved address (IP and port):
the result is exactly the first-occurrence dedup of the flattened resolved
addresses — duplicates are dropped, the first-seen entry is retained in its
position, first-appearance order is preserved (the result is a duplicate-free
sublist of the full resolution order) — and duplicates never cause an error. -/
theorem parseAddressList_dedup (gai : String → Except Int (List String))
    (gstr : Int → String) (s : String) (dp : Nat) (hps : List HostPort)
    (ips : String → List String)
    (hparse : HostPort.parseList dp (splitCommaSkipEmpty s) = .ok hps)
    (hres : ∀ hp ∈ hps, gai hp.host = .ok (ips hp.host)) :
    parseAddressList gai gstr s dp [] =
      (firstDedup [] (resolvedFlat ips hps), .okS) ∧
    (firstDedup [] (resolvedFlat ips hps)).Nodup ∧
    List.Sublist (firstDedup [] (resolvedFlat ips hps)) (resolvedFlat ips hps) := by
  obtain ⟨h1, _⟩ := parseAddressListLoop_ok gai gstr ips hps [] [] hres
  refine ⟨?_, (firstDedup_nodup (resolvedFlat ips hps) []).2,
    firstDedup_sublist (resolvedFlat ips hps) []⟩
  simp only [parseAddressList, hparse]
  rw [show (parseAddressListLoop gai gstr hps [] []).2.1 =
      ((parseAddressListLoop gai gstr hps [] []).2).1 from rfl]
  rw [h1]
  simp

/-- Witness for C5: the spec's dedup property — two host strings resolving to
the same IP and port yield exactly one entry. -/
theorem parseAddressList_dedup_witness :
    HostPort.parseList 7 (splitCommaSkipEmpty "h1,h2") =
      .ok [⟨"h1", 7⟩, ⟨"h2", 7⟩] ∧
    parseAddressList (fun _ => .ok ["1.2.3.4"]) (fun _ => "") "h1,h2" 7 [] =
      ([⟨"1.2.3.4", 7⟩], .okS) := by
  refine ⟨by decide, ?_⟩
  have h := (parseAddressList_dedup (fun _ => .ok ["1.2.3.4"]) (fun _ => "")
    "h1,h2" 7 [⟨"h1", 7⟩, ⟨"h2", 7⟩] (fun _ => ["1.2.3.4"]) (by decide)
    (fun hp _ => rfl)).1
  rw [h]
  decide

/-! ### Resolver error contents -/

/-- C8 counterexample: at a concrete failed resolution with `getaddrinfo`
return code 5 (native text `gai_strerror(5)`, here `"gai 5"`) and ambient
`errno` 7: `ResolveAddresses` attaches the native text but NO numeric code
(`none`, not `some 5`), and `GetFQDN` attaches the ambient errno's text and
value (`"errno 7"`, `some 7`), not the failed resolver call's (`"gai 5"`,
`some 5`) — so neither error carries both the resolver's native text and
code. -/
theorem resolver_error_counterexample :
    resolveAddresses (fun _ => .error 5) (fun n => "gai " ++ toString n) ⟨"h", 1⟩ =
      .error (.networkError "Unable to resolve address 'h'" "gai 5" none) ∧
    (none : Option Int) ≠ some 5 ∧
    getFQDN (.ok "h") (fun _ => .error 5) 7 (fun n => "errno " ++ toString n) =
      .error (.networkError "Unable to lookup FQDN" "errno 7" (some 7)) ∧
    "errno 7" ≠ "gai 5" ∧
    some (7 : Int) ≠ some 5 := by
  refine ⟨by decide, by decide, by decide, by decide, by decide⟩

/-- C8 amended: `ResolveAddresses` failures carry the resolver's native error
text `gai_strerror(rc)` but no numeric code; `GetFQDN` canonical-name
failures carry the ambient thread errno's text and value (which `getaddrinfo`
does not set), not the failed resolver call's error; the hostname-lookup
failure inside `GetFQDN` correctly carries the OS call's errno text and
value. -/
theorem resolver_error_contents (gai : String → Except Int (List String))
    (gstr : Int → String) (hp : HostPort) (rc : Int)
    (canon : String → Except Int String) (name : String) (rc2 : Int)
    (errnoVal e : Int) (estr : Int → String)
    (h1 : gai hp.host = .error rc) (h2 : canon name = .error rc2) :
    resolveAddresses gai gstr hp =
      .error (.networkError ("Unable to resolve address '" ++ hp.host ++ "'")
        (gstr rc) none) ∧
    getFQDN (.ok name) canon errnoVal estr =
      .error (.networkError "Unable to lookup FQDN" (estr errnoVal) (some errnoVal)) ∧
    getFQDN (.error e) canon errnoVal estr =
      .error (.networkError "Unable to determine local hostname" (estr e) (some e)) := by
  refine ⟨?_, ?_, ?_⟩
  · simp [resolveAddresses, h1]
  · simp [getFQDN, getHostname, h2]
  · simp [getFQDN, getHostname]

/-- Witness for C8 (amended) at concrete resolver outcomes. -/
theorem resolver_error_contents_witness :
    resolveAddresses (fun _ => .error 3) (fun n => "gai " ++ toString n) ⟨"x", 2⟩ =
      .error (.networkError "Unable to resolve address 'x'" "gai 3" none) ∧
    getFQDN (.ok "x") (fun _ => .error 3) 9 (fun n => "errno " ++ toString n) =
      .error (.networkError "Unable to lookup FQDN" "errno 9" (some 9)) := by
  have h := resolver_error_contents (fun _ => .error 3) (fun n => "gai " ++ toString n)
    ⟨"x", 2⟩ 3 (fun _ => .error 3) "x" 3 9 1 (fun n => "errno " ++ toString n) rfl rfl
  exact ⟨by rw [h.1]; decide, by rw [h.2.1]; decide⟩

/-! ### Mutual exclusion of the port allocator -/

/-- The lock-ownership invariant: every port a still-holding instance has
returned is locked in the shared directory by exactly that instance. -/
def allocInv (s : AllocSys) : Prop :=
  ∀ j p, (s.insts j).result = some p → (s.insts j).released = false →
    s.locks p = some j

theorem initSys_inv : allocInv initSys := by
  intro j p hr _
  exact Option.noConfusion hr

theorem stepWork_inv (draw : Nat → Nat → Nat) (bindOk : Nat → Nat → Nat → Bool)
    (s : AllocSys) (j : Nat) (h : allocInv s) :
    allocInv (stepWork draw bindOk s j) := by
  intro j' p' hr' hrel'
  cases hres : (s.insts j).result with
  | some v =>
    simp only [stepWork, hres] at hr' hrel' ⊢
    exact h j' p' hr' hrel'
  | none =>
    cases hfuel : (s.insts j).fuel with
    | zero =>
      simp only [stepWork, hres, hfuel] at hr' hrel' ⊢
      exact h j' p' hr' hrel'
    | succ fuel =>
      simp only [stepWork, hres, hfuel] at hr' hrel' ⊢
      by_cases hb : bindOk j (s.insts j).attempt (portOfDraw (draw j (s.insts j).attempt)) = true
      · rw [if_pos hb] at hr' hrel' ⊢
        cases hlock : lockFile s.locks j (portOfDraw (draw j (s.insts j).attempt)) with
        | some locks' =>
          rw [hlock] at hr' hrel'
          simp only at hr' hrel' ⊢
          have hfree : s.locks (portOfDraw (draw j (s.insts j).attempt)) = none := by
            unfold lockFile at hlock
            cases hl : s.locks (portOfDraw (draw j (s.insts j).attempt)) with
            | some _ => rw [hl] at hlock; exact Option.noConfusion hlock
            | none => rfl
          have hlocks' : locks' = fun q =>
              if q = portOfDraw (draw j (s.insts j).attempt) then some j
              else s.locks q := by
            unfold lockFile at hlock
            rw [hfree] at hlock
            exact (Option.some.inj hlock).symm
          by_cases hjj : j' = j
          · subst hjj
            rw [if_pos rfl] at hr'
            simp only at hr'
            have hp : p' = portOfDraw (draw j' (s.insts j').attempt) :=
              (Option.some.inj hr').symm
            rw [hlocks', hp]
            simp
          · rw [if_neg hjj] at hr' hrel'
            have hold := h j' p' hr' hrel'
            rw [hlocks']
            by_cases hpp : p' = portOfDraw (draw j (s.insts j).attempt)
            · rw [hpp] at hold
              rw [hfree] at hold
              exact Option.noConfusion hold
            · simp only [hpp, if_false]
              exact hold
        | none =>
          rw [hlock] at hr' hrel'
          simp only at hr' hrel' ⊢
          by_cases hjj : j' = j
          · subst hjj
            rw [if_pos rfl] at hr'
            simp only at hr'
            exact Option.noConfusion hr'
          · rw [if_neg hjj] at hr' hrel'
            exact h j' p' hr' hrel'
      · rw [if_neg hb] at hr' hrel' ⊢
        simp only at hr' hrel' ⊢
        by_cases hjj : j' = j
        · subst hjj
          rw [if_pos rfl] at hr'
          simp only at hr'
          exact Option.noConfusion hr'
        · rw [if_neg hjj] at hr' hrel'
          exact h j' p' hr' hrel'

theorem stepRelease_inv (s : AllocSys) (j : Nat) (h : allocInv s) :
    allocInv (stepRelease s j) := by
  intro j' p' hr' hrel'
  cases hres : (s.insts j).result with
  | none =>
    simp only [stepRelease, hres] at hr' hrel' ⊢
    exact h j' p' hr' hrel'
  | some p =>
    cases hrel : (s.insts j).released with
    | true =>
      simp only [stepRelease, hres, hrel] at hr' hrel' ⊢
      exact h j' p' hr' hrel'
    | false =>
      simp only [stepRelease, hres, hrel] at hr' hrel' ⊢
      by_cases hjj : j' = j
      · subst hjj
        rw [if_pos rfl] at hrel'
        simp only at hrel'
        exact Bool.noConfusion hrel'
      · rw [if_neg hjj] at hr' hrel'
        have hold := h j' p' hr' hrel'
        by_cases hpp : p' = p
        · subst hpp
          have hjlock := h j p' hres hrel
          rw [hold] at hjlock
          rw [if_pos rfl]
          exact absurd (Option.some.inj hjlock) hjj
        · rw [if_neg hpp]
          exact hold

theorem runAlloc_inv (draw : Nat → Nat → Nat) (bindOk : Nat → Nat → Nat → Bool) :
    ∀ (evs : List AllocEv) (s : AllocSys), allocInv s →
      allocInv (runAlloc draw bindOk evs s) := by
  intro evs
  induction evs with
  | nil => intro s h; exact h
  | cons ev rest ih =>
    intro s h
    cases ev with
    | work j => exact ih (stepWork draw bindOk s j) (stepWork_inv draw bindOk s j h)
    | release j => exact ih (stepRelease s j) (stepRelease_inv s j h)

/-- C1: mutual exclusion of the port allocator.  For any number of simulated
allocator instances sharing the lock directory (bind outcomes injected via
`bindOk`), under any interleaving of attempts and releases: an instance has
returned a port only if it owns that port's exclusive file lock in the shared
directory, and two instances that both returned port `p` with both locks
still held are the same instance — no two ever return the same port while
both locks are held. -/
theorem getFreePort_mutual_exclusion (draw : Nat → Nat → Nat)
    (bindOk : Nat → Nat → Nat → Bool) (evs : List AllocEv) (j k p : Nat)
    (hj : ((runAlloc draw bindOk evs initSys).insts j).result = some p)
    (hjr : ((runAlloc draw bindOk evs initSys).insts j).released = false)
    (hk : ((runAlloc draw bindOk evs initSys).insts k).result = some p)
    (hkr : ((runAlloc draw bindOk evs initSys).insts k).released = false) :
    (runAlloc draw bindOk evs initSys).locks p = some j ∧ j = k := by
  have hinv := runAlloc_inv draw bindOk evs initSys initSys_inv
  have h1 := hinv j p hj hjr
  have h2 := hinv k p hk hkr
  rw [h1] at h2
  exact ⟨h1, Option.some.inj h2⟩

/-- Witness for C1: instance 0 claims port 40000; instance 1 binds the same
port but its lock attempt fails, so it retries and never returns 40000. -/
theorem getFreePort_mutual_exclusion_witness :
    ((runAlloc (fun _ _ => 0) (fun _ _ _ => true) [.work 0, .work 1] initSys).insts 0).result =
      some 40000 ∧
    ((runAlloc (fun _ _ => 0) (fun _ _ _ => true) [.work 0, .work 1] initSys).insts 0).released =
      false ∧
    ((runAlloc (fun _ _ => 0) (fun _ _ _ => true) [.work 0, .work 1] initSys).insts 1).result =
      none ∧
    ((runAlloc (fun _ _ => 0) (fun _ _ _ => true) [.work 0, .work 1] initSys).locks 40000 =
      some 0 ∧ (0 : Nat) = 0) := by
  refine ⟨rfl, rfl, rfl,
    getFreePort_mutual_exclusion (fun _ _ => 0) (fun _ _ _ => true)
      [.work 0, .work 1] 0 0 40000 rfl rfl rfl rfl⟩

end YbNet
